import Mathlib

/-!
Verification of the `objstore` distributed object store core
(`objstore.go`, `storage/remote.go`) against its natural-language
specification.  The Go code is shallowly embedded: Go maps become
association lists, journals become ordered `id → FileMeta` mappings,
stateful methods become explicit state passing, and fallible calls
return `Option`.  The `journal` package is not part of the given
sources; where its operations are needed they are modelled from the
specification (an ordered mapping with `Set` / `Delete` / `Get`).
-/

namespace Objstore

/-- Consistency levels of `journal.ConsistencyLevel`.  The Go type is an
integer; besides the three named constants (`ConsistencyLocal`,
`ConsistencyS3`, `ConsistencyFull`) any other integer value is
representable, modelled by the `consistencyOther` constructor. -/
inductive ConsistencyLevel where
  | consistencyLocal
  | consistencyS3
  | consistencyFull
  | consistencyOther (n : Nat)
  deriving DecidableEq, Repr

/-- `journal.FileMeta`: one object record from one writer's perspective. -/
structure FileMeta where
  id : String
  name : String
  size : Int
  timestamp : Int
  consistency : ConsistencyLevel
  isSymlink : Bool
  isDeleted : Bool
  deriving DecidableEq, Repr

/-- `ConsistencyLevel.Check` from `objstore.go`: accepts the three named
levels, rejects everything else. -/
def ConsistencyLevel.check (c : ConsistencyLevel) : Except String ConsistencyLevel :=
  match c with
  | consistencyLocal => .ok c
  | consistencyS3 => .ok c
  | consistencyFull => .ok c
  | consistencyOther _ => .error "objstore: invalid consistency level"

/-- Lookup in an association list keyed by strings (a Go `map[string]V`
access `m[k]`, or `journal.Journal.Get`). -/
def assocGet (s : List (String × α)) (k : String) : Option α :=
  match s with
  | [] => none
  | e :: rest => if e.1 = k then some e.2 else assocGet rest k

/-- Update in an association list (a Go map assignment `m[k] = v`, or
`journal.Journal.Set`): replaces the first binding of `k`, or appends a
new binding. -/
def assocSet (s : List (String × α)) (k : String) (v : α) : List (String × α) :=
  match s with
  | [] => [(k, v)]
  | e :: rest => if e.1 = k then (k, v) :: rest else e :: assocSet rest k v

/-- Removal from an association list (Go `delete(m, k)`, or
`journal.Journal.Delete`). -/
def assocDelete (s : List (String × α)) (k : String) : List (String × α) :=
  s.filter (fun e => e.1 ≠ k)

/-- A journal, modelled from the spec: an ordered mapping id → FileMeta. -/
abbrev Journal : Type := List (String × FileMeta)

/-- A metas map `map[string]*journal.FileMeta` used by `sync`. -/
abbrev MetaMap : Type := List (String × FileMeta)

/-- One iteration of the first merge loop of `sync` (objstore.go,
lines 244-252): the body structurally mirrors the Go code, including the
fall-through to the unconditional assignment after the guarded one. -/
def mergeAddStep (s : MetaMap) (meta : FileMeta) : MetaMap :=
  match assocGet s meta.id with
  | some m =>
    if meta.timestamp > m.timestamp then
      assocSet s meta.id meta
    else
      assocSet s meta.id meta
  | none => assocSet s meta.id meta

/-- The merge of all peer-reported added metas into `setAdded`
(objstore.go, lines 244-252). -/
def mergeAdded (listAdded : List FileMeta) : MetaMap :=
  listAdded.foldl mergeAddStep []

/-- One iteration of the second loop of `sync` (objstore.go, lines
253-269): reconciles a deleted meta against `setAdded`, then merges it
into `setDeleted` (with the same guarded-then-unconditional assignment
structure as the add merge). -/
def mergeDelStep (p : MetaMap × MetaMap) (meta : FileMeta) : MetaMap × MetaMap :=
  let setAdded := p.1
  let setDeleted := p.2
  match assocGet setAdded meta.id with
  | some mAdd =>
    if mAdd.timestamp > meta.timestamp then
      (setAdded, setDeleted)
    else
      let setAdded := assocDelete setAdded meta.id
      match assocGet setDeleted meta.id with
      | some m =>
        if meta.timestamp > m.timestamp then
          (setAdded, assocSet setDeleted meta.id meta)
        else
          (setAdded, assocSet setDeleted meta.id meta)
      | none => (setAdded, assocSet setDeleted meta.id meta)
  | none =>
    match assocGet setDeleted meta.id with
    | some m =>
      if meta.timestamp > m.timestamp then
        (setAdded, assocSet setDeleted meta.id meta)
      else
        (setAdded, assocSet setDeleted meta.id meta)
    | none => (setAdded, assocSet setDeleted meta.id meta)

/-- The full deleted-metas loop of `sync`: folds `mergeDelStep` over the
peer-reported deleted metas, starting from the merged `setAdded` and an
empty `setDeleted`. -/
def mergeDeleted (setAdded : MetaMap) (listDeleted : List FileMeta) : MetaMap × MetaMap :=
  listDeleted.foldl mergeDelStep (setAdded, [])

/-- `cluster.EventType`. -/
inductive EventType where
  | eventFileAdded
  | eventFileDeleted
  | eventOpaqueData
  | eventStopAnnounce
  deriving DecidableEq, Repr

/-- `cluster.EventAnnounce`: the cluster message envelope. -/
structure EventAnnounce where
  type : EventType
  fileMeta : Option FileMeta
  deriving DecidableEq, Repr

/-- The `storeState` enum of `objstore.go`. -/
inductive StorePhase where
  | storeInactiveState
  | storeSyncState
  | storeActiveState
  deriving DecidableEq, Repr

/-- The observable state of one `objStore` node together with the
collaborators it owns: local storage contents, the journal set, the two
announce pumps (modelled as the FIFO queues of submitted events), and
the remote blob store contents. -/
structure StoreState where
  nodeID : String
  state : StorePhase
  files : List (String × List Nat)
  journals : List (String × Journal)
  inbound : List EventAnnounce
  outbound : List EventAnnounce
  remote : List (String × List Nat)
  deriving DecidableEq, Repr

/-- Submission of an event into a pump queue.  Modelled from the spec:
the pump is an unbounded FIFO queue, so a submission always just
appends. -/
def pumpSubmit (q : List EventAnnounce) (ev : EventAnnounce) : List EventAnnounce :=
  q ++ [ev]

/-- `ReceiveEventAnnounce` (objstore.go, lines 403-408): a
`StopAnnounce` through the public entry point is ignored; otherwise the
event goes to the inbound pump. -/
def receiveEventAnnounce (o : StoreState) (ev : EventAnnounce) : StoreState :=
  if ev.type = .eventStopAnnounce then o
  else { o with inbound := pumpSubmit o.inbound ev }

/-- `EmitEventAnnounce` (objstore.go, lines 411-416): a `StopAnnounce`
through the public entry point is ignored; otherwise the event goes to
the outbound pump. -/
def emitEventAnnounce (o : StoreState) (ev : EventAnnounce) : StoreState :=
  if ev.type = .eventStopAnnounce then o
  else { o with outbound := pumpSubmit o.outbound ev }

/-- The accumulator threaded through the journal-update mutator of
`sync` (objstore.go, lines 271-302): the journal being mutated plus the
side effects the mutator performs (local storage removals, synthetic
inbound announces). -/
structure SyncAcc where
  j : Journal
  files : List (String × List Nat)
  inbound : List EventAnnounce
  deriving DecidableEq, Repr

/-- One iteration of the mutator body of `sync` over a merged added
meta (objstore.go, lines 273-299): tombstones remove the local bytes
and are recorded; LOCAL/REMOTE metas are recorded with
`is_symlink = true`; FULL metas additionally inject a synthetic
`FileAdded` announce into the inbound pump; any other consistency value
matches no `case` of the Go `switch` and is skipped. -/
def syncApplyMeta (acc : SyncAcc) (meta : FileMeta) : SyncAcc :=
  if meta.isDeleted then
    { acc with
      files := assocDelete acc.files meta.id
      j := assocSet acc.j meta.id meta }
  else
    match meta.consistency with
    | .consistencyLocal | .consistencyS3 =>
      { acc with j := assocSet acc.j meta.id { meta with isSymlink := true } }
    | .consistencyFull =>
      let meta' := { meta with isSymlink := true }
      { acc with
        inbound := pumpSubmit acc.inbound ⟨.eventFileAdded, some meta'⟩
        j := assocSet acc.j meta.id meta' }
    | .consistencyOther _ => acc

/-- The value `sync`'s mutator writes into the journal for a merged
added meta, if any (abstract view of `syncApplyMeta`). -/
def syncSetVal (meta : FileMeta) : Option FileMeta :=
  if meta.isDeleted then some meta
  else
    match meta.consistency with
    | .consistencyLocal | .consistencyS3 | .consistencyFull =>
      some { meta with isSymlink := true }
    | .consistencyOther _ => none

/-- The fixed inputs of one sync round: the membership view returned by
`cluster.ListNodes` and, per peer, the `(added, deleted)` response of
`cluster.Sync`. -/
structure SyncInput where
  nodes : List String
  responses : String → List FileMeta × List FileMeta

/-- The two merged meta maps `(setAdded, setDeleted)` a sync round
computes from the peer responses (objstore.go, lines 219-269).  Peer
responses are gathered in node order (one linearization of the
concurrent appends). -/
def syncSets (nid : String) (inp : SyncInput) : MetaMap × MetaMap :=
  let peers := inp.nodes.filter (fun n => n ≠ nid)
  let listAdded := (peers.map (fun p => (inp.responses p).1)).flatten
  let listDeleted := (peers.map (fun p => (inp.responses p).2)).flatten
  mergeDeleted (mergeAdded listAdded) listDeleted

/-- The announce emission tail of a sync round (objstore.go, lines
314-328): `FileDeleted` for tombstones in `setDeleted`, `FileAdded`
for the rest. -/
def syncEmitDeleted (o : StoreState) (setDeleted : MetaMap) : StoreState :=
  setDeleted.foldl
    (fun s (e : String × FileMeta) =>
      if e.2.isDeleted then
        emitEventAnnounce s ⟨.eventFileDeleted, some e.2⟩
      else
        emitEventAnnounce s ⟨.eventFileAdded, some e.2⟩) o

/-- One sync round (`objStore.sync`, objstore.go lines 197-331), as a
function of the store state and the fixed peer inputs.  Returns the new
state and the boolean the Go function returns to the startup retry
loop.  `journals.Update` is modelled from the spec as applying the
mutator to the journal with the given id (which `NewStore` creates, so
it is present by construction). -/
def syncRound (o : StoreState) (inp : SyncInput) : StoreState × Bool :=
  if inp.nodes.length < 2 then
    ({ o with state := .storeActiveState }, false)
  else
    let o := { o with state := .storeInactiveState }
    let sets := syncSets o.nodeID inp
    let o :=
      match assocGet o.journals o.nodeID with
      | some j =>
        let acc := sets.1.foldl (fun a (e : String × FileMeta) => syncApplyMeta a e.2)
          ⟨j, o.files, o.inbound⟩
        { o with
          journals := assocSet o.journals o.nodeID acc.j
          files := acc.files
          inbound := acc.inbound }
      | none => o
    let o := { o with state := .storeActiveState }
    (syncEmitDeleted o sets.2, true)

/-- The `storeLocal` closure of `PutObject` (objstore.go, lines
581-603): write the bytes to local storage, then in one
`ForEachUpdate` pass set the id in the owning journal and delete it
from every other journal; error if the owning journal was not
encountered.  `LocalStorage.Write` is modelled from the spec as storing
the stream's bytes under the id and returning the byte count. -/
def storeLocal (o : StoreState) (r : List Nat) (meta : FileMeta) :
    StoreState × Int × Option String :=
  let written : Int := r.length
  let files := assocSet o.files meta.id r
  let journals := o.journals.map fun e =>
    if o.nodeID = e.1 then (e.1, assocSet e.2 meta.id meta)
    else (e.1, assocDelete e.2 meta.id)
  let journalOk := o.journals.any fun e => o.nodeID = e.1
  let o := { o with files := files, journals := journals }
  if journalOk then (o, written, none)
  else (o, written, some "objstore: journal not found")

/-- `PutObject` (objstore.go, lines 580-649).  The reader is modelled
as the byte list it yields.  Note the shape of the Go `switch`: the
REMOTE/FULL branch returns `written` explicitly, while the LOCAL branch
falls through to the final `return 0, nil`. -/
def putObject (o : StoreState) (r : List Nat) (meta : FileMeta) :
    StoreState × Int × Option String :=
  match meta.consistency with
  | .consistencyLocal =>
    match storeLocal o r meta with
    | (o1, written, some e) =>
      (o1, written, some ("objstore: local store failed: " ++ e))
    | (o1, _, none) =>
      let o2 := emitEventAnnounce o1 ⟨.eventFileAdded, some meta⟩
      (o2, 0, none)
  | .consistencyS3 | .consistencyFull =>
    match storeLocal o r meta with
    | (o1, written, some e) =>
      (o1, written, some ("objstore: local store failed: " ++ e))
    | (o1, written, none) =>
      let o2 := emitEventAnnounce o1 ⟨.eventFileAdded, some meta⟩
      match assocGet o2.files meta.id with
      | none => (o2, written, some "objstore: local store missing file")
      | some f =>
        let o3 := { o2 with remote := assocSet o2.remote meta.id f }
        (o3, written, none)
  | .consistencyOther _ => (o, 0, some "objstore: unknown consistency")

/-- The journal scan shared by `HeadObject` and `GetObject`
(objstore.go, lines 483-505): visit journals in iteration order and
return the first record found for the id (`ForEachStop`). -/
def headMeta (jm : List (String × Journal)) (id : String) : Option FileMeta :=
  match jm with
  | [] => none
  | e :: rest =>
    match assocGet e.2 id with
    | some m => some m
    | none => headMeta rest id

/-- The read-side error of the model: `ErrNotFound`. -/
inductive GetErr where
  | notFound
  deriving DecidableEq, Repr

/-- `GetObject` (objstore.go, lines 496-521) as a function of the
journal set and the local disk contents: returns the byte stream, the
meta, and the error slot.  `LocalStorage.Read` is modelled from the
spec as a lookup of the id in the disk contents. -/
def getObject (jm : List (String × Journal)) (disk : List (String × List Nat))
    (id : String) : Option (List Nat) × Option FileMeta × Option GetErr :=
  match headMeta jm id with
  | none => (none, none, some .notFound)
  | some meta =>
    if meta.isSymlink then (none, some meta, some .notFound)
    else
      match assocGet disk id with
      | none => (none, some meta, some .notFound)
      | some f => (some f, some meta, none)

/-- One page of a `ListObjectsV2` response, as the fields
`storage/remote.go` reads from it: the listed keys, the `IsTruncated`
flag, and the response's `ContinuationToken`. -/
structure ListPage where
  contents : List String
  isTruncated : Bool
  continuationToken : Option String
  deriving DecidableEq, Repr

/-- The `ListObjectsV2Input` request `ListObjects` builds on every loop
iteration (storage/remote.go, lines 110-117). -/
structure ListObjectsRequest where
  bucket : String
  pfx : String
  startAfter : Option String
  maxKeys : Nat
  continuationToken : Option String
  deriving DecidableEq, Repr

/-- Request construction in `ListObjects`: pagination is controlled by
`MaxKeys: 100` and the continuation token carried over from the
previous page. -/
def mkListObjectsRequest (bucket pfx : String) (startAfter tok : Option String) :
    ListObjectsRequest :=
  { bucket := bucket
    pfx := pfx
    startAfter := startAfter
    maxKeys := 100
    continuationToken := tok }

/-- The pagination loop of `RemoteStorage.ListObjects`
(storage/remote.go, lines 106-138), consuming the provider's successive
responses: accumulate the page's keys; stop when `IsTruncated` is false
or when the response carries no continuation token; otherwise loop.
`none` means the loop needed another response beyond those provided
(i.e. it did not terminate within the given responses). -/
def listObjectsLoop (pages : List ListPage) (specs : List String) :
    Option (List String) :=
  match pages with
  | [] => none
  | page :: rest =>
    let specs := specs ++ page.contents
    if page.isTruncated = false then some specs
    else if page.continuationToken = none then some specs
    else listObjectsLoop rest specs

/-- `RemoteStorage.ListObjects` over a provider response sequence. -/
def listObjects (pages : List ListPage) : Option (List String) :=
  listObjectsLoop pages []

/-! ### Association-list lemmas -/

theorem assocGet_set_self (s : List (String × α)) (k : String) (v : α) :
    assocGet (assocSet s k v) k = some v := by
  induction s with
  | nil => simp [assocGet, assocSet]
  | cons e rest ih =>
    by_cases h : e.1 = k
    · simp [assocGet, assocSet, h]
    · simp [assocGet, assocSet, h, ih]

theorem assocGet_set_ne (s : List (String × α)) (k k' : String) (v : α)
    (h : k' ≠ k) : assocGet (assocSet s k v) k' = assocGet s k' := by
  have hkk : ¬ (k = k') := fun he => h he.symm
  induction s with
  | nil => simp [assocGet, assocSet, hkk]
  | cons e rest ih =>
    obtain ⟨e1, e2⟩ := e
    by_cases he : e1 = k
    · have he' : ¬ (e1 = k') := fun hc => hkk (he.symm.trans hc)
      simp [assocGet, assocSet, he, he', hkk]
    · simp [assocGet, assocSet, he, ih]

theorem assocSet_of_get_eq (s : List (String × α)) (k : String) (v : α)
    (h : assocGet s k = some v) : assocSet s k v = s := by
  induction s with
  | nil => simp [assocGet] at h
  | cons e rest ih =>
    obtain ⟨e1, e2⟩ := e
    by_cases he : e1 = k
    · simp only [assocGet, he, if_pos, Option.some.injEq] at h
      simp [assocSet, he, h]
    · simp only [assocGet, he, if_neg, not_false_iff] at h
      simp [assocSet, he, ih h]

theorem assocGet_delete_self (s : List (String × α)) (k : String) :
    assocGet (assocDelete s k) k = none := by
  induction s with
  | nil => simp [assocGet, assocDelete]
  | cons e rest ih =>
    obtain ⟨e1, e2⟩ := e
    by_cases he : e1 = k
    · simpa [assocDelete, List.filter_cons, he] using ih
    · simpa [assocDelete, List.filter_cons, he, assocGet] using ih

theorem assocGet_delete_ne (s : List (String × α)) (k k' : String)
    (h : k' ≠ k) : assocGet (assocDelete s k) k' = assocGet s k' := by
  have hkk : ¬ (k = k') := fun he => h he.symm
  induction s with
  | nil => simp [assocGet, assocDelete]
  | cons e rest ih =>
    obtain ⟨e1, e2⟩ := e
    by_cases he : e1 = k
    · have he' : ¬ (e1 = k') := fun hc => h (hc.symm.trans he)
      simpa [assocDelete, List.filter_cons, he, assocGet, he', hkk] using ih
    · by_cases he' : e1 = k'
      · simp [assocDelete, List.filter_cons, he, assocGet, he', h, hkk]
      · simpa [assocDelete, List.filter_cons, he, assocGet, he'] using ih

theorem assocSet_keys (s : List (String × α)) (k : String) (v : α) :
    (assocSet s k v).map Prod.fst =
      if k ∈ s.map Prod.fst then s.map Prod.fst else s.map Prod.fst ++ [k] := by
  induction s with
  | nil => simp [assocSet]
  | cons e rest ih =>
    by_cases he : e.1 = k
    · simp [assocSet, he]
    · have : ¬ k = e.1 := fun hc => he hc.symm
      by_cases hm : k ∈ rest.map Prod.fst
      · simp [assocSet, he, ih, hm, this]
      · simp [assocSet, he, ih, hm, this]

theorem assocSet_keys_nodup (s : List (String × α)) (k : String) (v : α)
    (h : (s.map Prod.fst).Nodup) : ((assocSet s k v).map Prod.fst).Nodup := by
  rw [assocSet_keys]
  by_cases hm : k ∈ s.map Prod.fst
  · simpa [hm] using h
  · simp only [hm, if_false]
    refine List.Nodup.append h (List.nodup_singleton k) ?_
    intro a ha hb
    rw [List.mem_singleton] at hb
    exact hm (hb ▸ ha)

theorem assocDelete_keys_sublist (s : List (String × α)) (k : String) :
    ((assocDelete s k).map Prod.fst).Sublist (s.map Prod.fst) :=
  List.Sublist.map Prod.fst (List.filter_sublist s)

theorem assocDelete_keys_nodup (s : List (String × α)) (k : String)
    (h : (s.map Prod.fst).Nodup) : ((assocDelete s k).map Prod.fst).Nodup :=
  List.Nodup.sublist (assocDelete_keys_sublist s k) h

theorem mem_assocSet (s : List (String × α)) (k : String) (v : α)
    (e : String × α) (he : e ∈ assocSet s k v) : e = (k, v) ∨ e ∈ s := by
  induction s with
  | nil => simpa [assocSet] using he
  | cons a rest ih =>
    by_cases ha : a.1 = k
    · simp only [assocSet, ha, if_true, List.mem_cons] at he
      rcases he with h1 | h1
      · exact Or.inl h1
      · exact Or.inr (List.mem_cons_of_mem a h1)
    · simp only [assocSet, ha, if_false, List.mem_cons] at he
      rcases he with h1 | h1
      · exact Or.inr (h1 ▸ List.mem_cons_self a rest)
      · rcases ih h1 with h2 | h2
        · exact Or.inl h2
        · exact Or.inr (List.mem_cons_of_mem a h2)

theorem mem_assocDelete (s : List (String × α)) (k : String)
    (e : String × α) (he : e ∈ assocDelete s k) : e ∈ s :=
  (List.mem_filter.mp he).1

theorem eq_of_mem_of_keys_nodup (l : List (String × α))
    (h : (l.map Prod.fst).Nodup) (e e' : String × α)
    (he : e ∈ l) (he' : e' ∈ l) (hk : e.1 = e'.1) : e = e' := by
  induction l with
  | nil => cases he
  | cons a rest ih =>
    simp only [List.map_cons, List.nodup_cons] at h
    rcases List.mem_cons.mp he with h1 | h1
    · rcases List.mem_cons.mp he' with h2 | h2
      · exact h1.trans h2.symm
      · exfalso
        apply h.1
        have h3 : e.1 ∈ rest.map Prod.fst :=
          hk ▸ List.mem_map_of_mem Prod.fst h2
        exact h1 ▸ h3
    · rcases List.mem_cons.mp he' with h2 | h2
      · exfalso
        apply h.1
        have h3 : e'.1 ∈ rest.map Prod.fst :=
          hk ▸ List.mem_map_of_mem Prod.fst h1
        exact h2 ▸ h3
      · exact ih h.2 h1 h2

/-! ### Structure of the sync merge -/

/-- Both branches of the timestamp guard in the add-merge loop perform
the same assignment, so the step always overwrites. -/
theorem mergeAddStep_eq (s : MetaMap) (meta : FileMeta) :
    mergeAddStep s meta = assocSet s meta.id meta := by
  unfold mergeAddStep
  cases assocGet s meta.id with
  | none => rfl
  | some m =>
    by_cases h : meta.timestamp > m.timestamp <;> simp [h]

/-- The `setAdded` component of one deleted-merge step: the delete is
skipped while a strictly newer add is present, otherwise the add is
removed. -/
theorem mergeDelStep_fst (p : MetaMap × MetaMap) (meta : FileMeta) :
    (mergeDelStep p meta).1 =
      match assocGet p.1 meta.id with
      | some mAdd =>
        if mAdd.timestamp > meta.timestamp then p.1
        else assocDelete p.1 meta.id
      | none => p.1 := by
  cases h1 : assocGet p.1 meta.id with
  | none =>
    cases h2 : assocGet p.2 meta.id with
    | none => simp [mergeDelStep, h1, h2]
    | some m =>
      by_cases h : meta.timestamp > m.timestamp <;> simp [mergeDelStep, h1, h2, h]
  | some mAdd =>
    by_cases h : mAdd.timestamp > meta.timestamp
    · simp [mergeDelStep, h1, h]
    · cases h2 : assocGet p.2 meta.id with
      | none => simp [mergeDelStep, h1, h2, h]
      | some m =>
        by_cases h3 : meta.timestamp > m.timestamp <;> simp [mergeDelStep, h1, h2, h, h3]

/-- The key/value discipline of the Go meta maps: keys are unique and
every binding maps an id to a meta carrying that id. -/
def goodMap (s : MetaMap) : Prop :=
  (s.map Prod.fst).Nodup ∧ ∀ e ∈ s, e.1 = e.2.id

theorem goodMap_nil : goodMap [] := ⟨List.nodup_nil, fun e he => absurd he (List.not_mem_nil e)⟩

theorem goodMap_set (s : MetaMap) (m : FileMeta) (h : goodMap s) :
    goodMap (assocSet s m.id m) := by
  refine ⟨assocSet_keys_nodup s m.id m h.1, fun e he => ?_⟩
  rcases mem_assocSet s m.id m e he with h1 | h1
  · rw [h1]
  · exact h.2 e h1

theorem goodMap_delete (s : MetaMap) (k : String) (h : goodMap s) :
    goodMap (assocDelete s k) :=
  ⟨assocDelete_keys_nodup s k h.1, fun e he => h.2 e (mem_assocDelete s k e he)⟩

theorem goodMap_mergeAdded (la : List FileMeta) : goodMap (mergeAdded la) := by
  have main : ∀ (l : List FileMeta) (s : MetaMap),
      goodMap s → goodMap (l.foldl mergeAddStep s) := by
    intro l
    induction l with
    | nil => intro s hs; exact hs
    | cons m rest ih =>
      intro s hs
      simp only [List.foldl_cons]
      exact ih _ (mergeAddStep_eq s m ▸ goodMap_set s m hs)
  exact main la [] goodMap_nil

theorem goodMap_mergeDeleted_fst (sa : MetaMap) (ld : List FileMeta)
    (h : goodMap sa) : goodMap (mergeDeleted sa ld).1 := by
  have main : ∀ (l : List FileMeta) (p : MetaMap × MetaMap),
      goodMap (Prod.fst p) → goodMap (l.foldl mergeDelStep p).1 := by
    intro l
    induction l with
    | nil => intro p hp; exact hp
    | cons m rest ih =>
      intro p hp
      simp only [List.foldl_cons]
      refine ih _ ?_
      rw [mergeDelStep_fst]
      cases assocGet p.1 m.id with
      | none => exact hp
      | some mAdd =>
        by_cases hts : mAdd.timestamp > m.timestamp
        · simpa [hts] using hp
        · simpa [hts] using goodMap_delete p.1 m.id hp
  exact main ld (sa, []) h

/-! ### Replay of the sync journal update -/

/-- The journal effect of the mutator of `sync`, folded over the merged
added metas (abstract view of the `Journal × side effects`
accumulator). -/
def applyAdds (j : Journal) (l : List FileMeta) : Journal :=
  l.foldl
    (fun j m =>
      match syncSetVal m with
      | some v => assocSet j m.id v
      | none => j) j

theorem syncApplyMeta_j (acc : SyncAcc) (m : FileMeta) :
    (syncApplyMeta acc m).j =
      match syncSetVal m with
      | some v => assocSet acc.j m.id v
      | none => acc.j := by
  unfold syncApplyMeta syncSetVal
  by_cases hd : m.isDeleted
  · simp [hd]
  · cases hc : m.consistency <;> simp [hd, hc]

theorem foldl_syncApplyMeta_j (l : List (String × FileMeta)) (acc : SyncAcc) :
    (l.foldl (fun a (e : String × FileMeta) => syncApplyMeta a e.2) acc).j =
      applyAdds acc.j (l.map Prod.snd) := by
  induction l generalizing acc with
  | nil => rfl
  | cons e rest ih =>
    simp only [List.foldl_cons, List.map_cons]
    rw [ih]
    show applyAdds (syncApplyMeta acc e.2).j (rest.map Prod.snd) =
      applyAdds _ (rest.map Prod.snd)
    rw [syncApplyMeta_j]

theorem applyAdds_get_not_mem (l : List FileMeta) (j : Journal) (k : String)
    (h : ∀ m ∈ l, m.id ≠ k) : assocGet (applyAdds j l) k = assocGet j k := by
  induction l generalizing j with
  | nil => rfl
  | cons m rest ih =>
    show assocGet (applyAdds _ rest) k = assocGet j k
    rw [ih _ (fun m' hm' => h m' (List.mem_cons_of_mem m hm'))]
    cases hv : syncSetVal m with
    | none => simp [hv]
    | some v =>
      simp only [hv]
      exact assocGet_set_ne j m.id k v (fun hc => h m (List.mem_cons_self m rest) hc.symm)

theorem applyAdds_get_of_mem (l : List FileMeta)
    (hnd : (l.map FileMeta.id).Nodup) (j : Journal) (m : FileMeta)
    (hm : m ∈ l) (v : FileMeta) (hv : syncSetVal m = some v) :
    assocGet (applyAdds j l) m.id = some v := by
  induction l generalizing j with
  | nil => cases hm
  | cons a rest ih =>
    simp only [List.map_cons, List.nodup_cons] at hnd
    rcases List.mem_cons.mp hm with h1 | h1
    · subst h1
      show assocGet (applyAdds _ rest) m.id = some v
      rw [applyAdds_get_not_mem rest _ m.id
        (fun m' hm' hc => hnd.1 (hc ▸ List.mem_map_of_mem FileMeta.id hm'))]
      simp [hv, assocGet_set_self]
    · exact ih hnd.2 _ h1

theorem applyAdds_fix (l : List FileMeta) (X : Journal)
    (h : ∀ m ∈ l, ∀ v, syncSetVal m = some v → assocGet X m.id = some v) :
    applyAdds X l = X := by
  induction l with
  | nil => rfl
  | cons m rest ih =>
    show applyAdds
      (match syncSetVal m with
        | some v => assocSet X m.id v
        | none => X) rest = X
    have hstep :
        (match syncSetVal m with
          | some v => assocSet X m.id v
          | none => X) = X := by
      cases hv : syncSetVal m with
      | none => rfl
      | some v =>
        simp only
        exact assocSet_of_get_eq X m.id v (h m (List.mem_cons_self m rest) v hv)
    rw [hstep]
    exact ih (fun m' hm' v hv => h m' (List.mem_cons_of_mem m hm') v hv)

theorem applyAdds_replay (l : List FileMeta)
    (hnd : (l.map FileMeta.id).Nodup) (j : Journal) :
    applyAdds (applyAdds j l) l = applyAdds j l :=
  applyAdds_fix l _ (fun m hm v hv => applyAdds_get_of_mem l hnd j m hm v hv)

theorem goodMap_vals_nodup (s : MetaMap) (h : goodMap s) :
    ((s.map Prod.snd).map FileMeta.id).Nodup := by
  rw [List.map_map]
  have he : s.map (FileMeta.id ∘ Prod.snd) = s.map Prod.fst :=
    List.map_congr_left (fun e he => (h.2 e he).symm)
  rw [he]
  exact h.1

theorem emitEventAnnounce_journals (o : StoreState) (ev : EventAnnounce) :
    (emitEventAnnounce o ev).journals = o.journals := by
  unfold emitEventAnnounce
  split <;> rfl

theorem emitEventAnnounce_nodeID (o : StoreState) (ev : EventAnnounce) :
    (emitEventAnnounce o ev).nodeID = o.nodeID := by
  unfold emitEventAnnounce
  split <;> rfl

theorem syncEmitDeleted_journals (sd : MetaMap) (o : StoreState) :
    (syncEmitDeleted o sd).journals = o.journals := by
  induction sd generalizing o with
  | nil => rfl
  | cons e rest ih =>
    have hstep : syncEmitDeleted o (e :: rest) =
        syncEmitDeleted
          (if e.2.isDeleted then emitEventAnnounce o ⟨.eventFileDeleted, some e.2⟩
           else emitEventAnnounce o ⟨.eventFileAdded, some e.2⟩) rest := rfl
    rw [hstep, ih]
    split <;> rw [emitEventAnnounce_journals]

theorem syncEmitDeleted_nodeID (sd : MetaMap) (o : StoreState) :
    (syncEmitDeleted o sd).nodeID = o.nodeID := by
  induction sd generalizing o with
  | nil => rfl
  | cons e rest ih =>
    have hstep : syncEmitDeleted o (e :: rest) =
        syncEmitDeleted
          (if e.2.isDeleted then emitEventAnnounce o ⟨.eventFileDeleted, some e.2⟩
           else emitEventAnnounce o ⟨.eventFileAdded, some e.2⟩) rest := rfl
    rw [hstep, ih]
    split <;> rw [emitEventAnnounce_nodeID]

theorem syncRound_journals_eq (o : StoreState) (inp : SyncInput)
    (h : ¬ inp.nodes.length < 2) :
    (syncRound o inp).1.journals =
      match assocGet o.journals o.nodeID with
      | some j =>
        assocSet o.journals o.nodeID
          (applyAdds j ((syncSets o.nodeID inp).1.map Prod.snd))
      | none => o.journals := by
  unfold syncRound
  rw [if_neg h]
  dsimp only
  rw [syncEmitDeleted_journals]
  cases hj : assocGet o.journals o.nodeID with
  | none => dsimp only [hj]
  | some j =>
    dsimp only [hj]
    rw [foldl_syncApplyMeta_j]

theorem syncRound_fst_nodeID (o : StoreState) (inp : SyncInput) :
    (syncRound o inp).1.nodeID = o.nodeID := by
  unfold syncRound
  by_cases h : inp.nodes.length < 2
  · rw [if_pos h]
  · rw [if_neg h]
    dsimp only
    rw [syncEmitDeleted_nodeID]
    cases hj : assocGet o.journals o.nodeID <;> dsimp only [hj]

/-- C8: the sync engine is idempotent on the journal state: for every
starting store state and every fixed set of peer responses, running the
sync round a second time with the identical inputs leaves the journal
set exactly as one round left it. -/
theorem C8_sync_idempotent (o : StoreState) (inp : SyncInput) :
    (syncRound (syncRound o inp).1 inp).1.journals = (syncRound o inp).1.journals := by
  by_cases h : inp.nodes.length < 2
  · have e1 : syncRound o inp = ({ o with state := .storeActiveState }, false) := by
      unfold syncRound
      rw [if_pos h]
    rw [e1]
    unfold syncRound
    rw [if_pos h]
  · have hnd : (((syncSets o.nodeID inp).1.map Prod.snd).map FileMeta.id).Nodup :=
      goodMap_vals_nodup _ (goodMap_mergeDeleted_fst _ _ (goodMap_mergeAdded _))
    have hn := syncRound_fst_nodeID o inp
    rw [syncRound_journals_eq _ inp h, syncRound_journals_eq o inp h, hn]
    cases hj : assocGet o.journals o.nodeID with
    | none => dsimp only [hj]; rw [hj]
    | some j =>
      dsimp only [hj]
      rw [assocGet_set_self]
      dsimp only
      rw [applyAdds_replay _ hnd, assocSet_of_get_eq]
      exact assocGet_set_self _ _ _

/-! ### Concrete fixtures -/

/-- A meta record with the given id, timestamp, consistency and
tombstone flag (other fields defaulted). -/
def mkMeta (id : String) (ts : Int) (c : ConsistencyLevel) (del : Bool) : FileMeta :=
  ⟨id, "", 0, ts, c, false, del⟩

/-- A one-node store "n1" owning an empty journal. -/
def soloStore : StoreState :=
  ⟨"n1", .storeInactiveState, [], [("n1", [])], [], [], []⟩

/-- A membership view containing only the local node. -/
def soloInput : SyncInput := ⟨["n1"], fun _ => ([], [])⟩

/-! ### Claims -/

/-- C1: the claim states that the merge of peer-reported added metas
keeps, per id, the record with the greatest timestamp (likewise for
deleted metas).  The code instead always overwrites — the guarded
branch and the fall-through perform the same assignment — so the merge
keeps the LAST record in list order.  Evidence: merging
`[{id=a, ts=5}, {id=a, ts=3}]` keeps the ts=3 record although the ts=5
record has the strictly greater timestamp; the deleted merge behaves
the same way. -/
theorem C1_merge_keeps_last_not_greatest :
    assocGet (mergeAdded [mkMeta "a" 5 .consistencyLocal false,
        mkMeta "a" 3 .consistencyLocal false]) "a"
      = some (mkMeta "a" 3 .consistencyLocal false) ∧
    (mkMeta "a" 3 .consistencyLocal false).timestamp
      < (mkMeta "a" 5 .consistencyLocal false).timestamp ∧
    assocGet (mergeDeleted [] [mkMeta "a" 6 .consistencyLocal true,
        mkMeta "a" 3 .consistencyLocal true]).2 "a"
      = some (mkMeta "a" 3 .consistencyLocal true) :=
  ⟨rfl, by decide, rfl⟩

/-- C2: the claim states that a successful PutObject returns the byte
count written locally; in particular a LOCAL put of the 5-byte body
"hello" should return 5.  The code's LOCAL branch falls through to the
final `return 0, nil`: the bytes are written (5 bytes land in local
storage) but the returned count is 0.  The REMOTE (S3) branch, by
contrast, does return the written count. -/
theorem C2_putObject_local_returns_zero :
    (putObject soloStore [104, 101, 108, 108, 111]
        (mkMeta "a" 1 .consistencyLocal false)).2 = (0, none) ∧
    assocGet (putObject soloStore [104, 101, 108, 108, 111]
        (mkMeta "a" 1 .consistencyLocal false)).1.files "a"
      = some [104, 101, 108, 108, 111] ∧
    (putObject soloStore [104, 101, 108, 108, 111]
        (mkMeta "a" 1 .consistencyS3 false)).2.1 = 5 :=
  ⟨rfl, rfl, rfl⟩

/-- C3 (counterexample): with only the local node in the cluster, a
sync round does set the state to ACTIVE, but it reports `false` (not
synced) to the startup retry loop `for !synced`, so the loop does not
end — contradicting the claim that it "reports completion so that the
startup retry loop ends". -/
theorem C3_solo_sync_reports_not_done :
    (syncRound soloStore soloInput).1.state = .storeActiveState ∧
    (syncRound soloStore soloInput).2 = false :=
  ⟨rfl, rfl⟩

/-- C3 (amended): when the cluster contains fewer than 2 nodes, a sync
round sets the store state to ACTIVE but returns `false`, so the
startup retry loop does not end and attempts further sync rounds. -/
theorem C3_solo_sync_active_and_retries (o : StoreState) (inp : SyncInput)
    (h : inp.nodes.length < 2) :
    syncRound o inp = ({ o with state := .storeActiveState }, false) := by
  unfold syncRound
  rw [if_pos h]

/-- Witness for the amended C3 theorem at the solo-node fixture. -/
theorem C3_solo_sync_active_and_retries_witness :
    soloInput.nodes.length < 2 ∧
    syncRound soloStore soloInput = ({ soloStore with state := .storeActiveState }, false) :=
  ⟨by decide, C3_solo_sync_active_and_retries soloStore soloInput (by decide)⟩

/-- C4: the claim describes the reconciliation over the merged maps A
and D, with D holding the greatest-timestamp delete per id.  With adds
`[{id=a, ts=1}]` and deletes `[{id=a, ts=6}, {id=a, ts=3}]` the code
removes the add (as the claim predicts, since 1 ≤ 6) but the tombstone
kept in the final delete map is the stale ts=3 record, not the merged
D[a] with the greatest timestamp 6: the loop's fall-through overwrites
the newer tombstone with the older one. -/
theorem C4_reconcile_keeps_stale_tombstone :
    (mergeDeleted (mergeAdded [mkMeta "a" 1 .consistencyLocal false])
        [mkMeta "a" 6 .consistencyLocal true, mkMeta "a" 3 .consistencyLocal true]).1
      = [] ∧
    assocGet (mergeDeleted (mergeAdded [mkMeta "a" 1 .consistencyLocal false])
        [mkMeta "a" 6 .consistencyLocal true, mkMeta "a" 3 .consistencyLocal true]).2 "a"
      = some (mkMeta "a" 3 .consistencyLocal true) :=
  ⟨rfl, rfl⟩

theorem any_key_iff (l : List (String × α)) (k : String) :
    (l.any fun e => k = e.1) = true ↔ k ∈ l.map Prod.fst := by
  induction l with
  | nil => simp
  | cons e rest ih =>
    simp only [List.any_cons, List.map_cons, List.mem_cons, Bool.or_eq_true,
      decide_eq_true_eq, ih]

/-- C5: for every LOCAL PutObject on a store whose journal keys are
unique (JournalManager keys journals by owning node id): if the owning
journal is present, the call succeeds and the single `ForEachUpdate`
mutation sets the id in the owning journal and deletes it from every
other journal, so afterwards at most one journal holds a record for
the id; if the owning journal is absent, PutObject fails with an
error. -/
theorem C5_putObject_local_journal_exclusive (o : StoreState) (r : List Nat)
    (m : FileMeta) (hnd : (o.journals.map Prod.fst).Nodup) :
    (o.nodeID ∈ o.journals.map Prod.fst →
      (putObject o r { m with consistency := .consistencyLocal }).2.2 = none ∧
      (∀ e ∈ (putObject o r { m with consistency := .consistencyLocal }).1.journals,
        (e.1 = o.nodeID →
          assocGet e.2 m.id = some { m with consistency := .consistencyLocal }) ∧
        (e.1 ≠ o.nodeID → assocGet e.2 m.id = none)) ∧
      (∀ e ∈ (putObject o r { m with consistency := .consistencyLocal }).1.journals,
        ∀ e' ∈ (putObject o r { m with consistency := .consistencyLocal }).1.journals,
          assocGet e.2 m.id ≠ none → assocGet e'.2 m.id ≠ none → e = e')) ∧
    (o.nodeID ∉ o.journals.map Prod.fst →
      (putObject o r { m with consistency := .consistencyLocal }).2.2
        = some ("objstore: local store failed: " ++ "objstore: journal not found")) := by
  constructor
  · intro hmem
    have hok : (o.journals.any fun e => o.nodeID = e.1) = true := (any_key_iff _ _).mpr hmem
    have hput : putObject o r { m with consistency := .consistencyLocal } =
        (emitEventAnnounce
          { o with
            files := assocSet o.files m.id r
            journals := o.journals.map fun e =>
              if o.nodeID = e.1 then (e.1, assocSet e.2 m.id { m with consistency := .consistencyLocal })
              else (e.1, assocDelete e.2 m.id) }
          ⟨.eventFileAdded, some { m with consistency := .consistencyLocal }⟩, 0, none) := by
      unfold putObject storeLocal
      dsimp only
      rw [hok]
      rfl
    rw [hput]
    have hjmem : ∀ e, e ∈ (emitEventAnnounce
          { o with
            files := assocSet o.files m.id r
            journals := o.journals.map fun e =>
              if o.nodeID = e.1 then (e.1, assocSet e.2 m.id { m with consistency := .consistencyLocal })
              else (e.1, assocDelete e.2 m.id) }
          ⟨.eventFileAdded, some { m with consistency := .consistencyLocal }⟩).journals ↔
        e ∈ o.journals.map fun a =>
          if o.nodeID = a.1 then (a.1, assocSet a.2 m.id { m with consistency := .consistencyLocal })
          else (a.1, assocDelete a.2 m.id) := by
      intro e
      rw [emitEventAnnounce_journals]
    have hparts : ∀ e, (e ∈ o.journals.map fun a =>
          if o.nodeID = a.1 then (a.1, assocSet a.2 m.id { m with consistency := .consistencyLocal })
          else (a.1, assocDelete a.2 m.id)) →
        (e.1 = o.nodeID →
          assocGet e.2 m.id = some { m with consistency := .consistencyLocal }) ∧
        (e.1 ≠ o.nodeID → assocGet e.2 m.id = none) := by
      intro e he
      obtain ⟨a, ha, hfa⟩ := List.mem_map.mp he
      by_cases hid : o.nodeID = a.1
      · rw [if_pos hid] at hfa
        constructor
        · intro _
          rw [← hfa]
          exact assocGet_set_self a.2 m.id _
        · intro hne
          exact absurd (by rw [← hfa]; exact hid.symm) hne
      · rw [if_neg hid] at hfa
        constructor
        · intro heq
          rw [← hfa] at heq
          exact absurd heq.symm hid
        · intro _
          rw [← hfa]
          exact assocGet_delete_self a.2 m.id
    have hkeys : ((o.journals.map fun a =>
          if o.nodeID = a.1 then (a.1, assocSet a.2 m.id { m with consistency := .consistencyLocal })
          else (a.1, assocDelete a.2 m.id)).map Prod.fst) = o.journals.map Prod.fst := by
      rw [List.map_map]
      refine List.map_congr_left (fun a _ => ?_)
      by_cases hid : o.nodeID = a.1 <;> simp [hid]
    refine ⟨rfl, ?_, ?_⟩
    · intro e he
      exact hparts e ((hjmem e).mp he)
    · intro e he e' he' hg hg'
      have he2 := (hjmem e).mp he
      have he2' := (hjmem e').mp he'
      have hk : e.1 = o.nodeID := by
        by_contra hc
        exact hg ((hparts e he2).2 hc)
      have hk' : e'.1 = o.nodeID := by
        by_contra hc
        exact hg' ((hparts e' he2').2 hc)
      exact eq_of_mem_of_keys_nodup _ (hkeys ▸ hnd) e e' he2 he2' (hk.trans hk'.symm)
  · intro hmem
    have hok : (o.journals.any fun e => o.nodeID = e.1) = false := by
      rw [← Bool.not_eq_true]
      exact fun hc => hmem ((any_key_iff _ _).mp hc)
    have hput : putObject o r { m with consistency := .consistencyLocal } =
        ({ o with
            files := assocSet o.files m.id r
            journals := o.journals.map fun e =>
              if o.nodeID = e.1 then (e.1, assocSet e.2 m.id { m with consistency := .consistencyLocal })
              else (e.1, assocDelete e.2 m.id) },
          (r.length : Int),
          some ("objstore: local store failed: " ++ "objstore: journal not found")) := by
      unfold putObject storeLocal
      dsimp only
      rw [hok]
      rfl
    rw [hput]

/-- A two-journal store "n1" where the owning journal is present. -/
def ownedStore : StoreState :=
  ⟨"n1", .storeInactiveState, [],
    [("n1", []), ("n2", [("b", mkMeta "b" 2 .consistencyLocal false)])], [], [], []⟩

/-- A store "n1" whose owning journal is missing from the journal set. -/
def ownerlessStore : StoreState :=
  ⟨"n1", .storeInactiveState, [], [("n2", [])], [], [], []⟩

/-- Witness for C5 at concrete stores: with the owning journal present
the LOCAL put succeeds; with it absent the put errors. -/
theorem C5_putObject_local_journal_exclusive_witness :
    (ownedStore.journals.map Prod.fst).Nodup ∧
    (putObject ownedStore [7] { mkMeta "a" 1 .consistencyLocal false with
        consistency := .consistencyLocal }).2.2 = none ∧
    (putObject ownerlessStore [7] { mkMeta "a" 1 .consistencyLocal false with
        consistency := .consistencyLocal }).2.2
      = some ("objstore: local store failed: " ++ "objstore: journal not found") :=
  ⟨by decide,
   ((C5_putObject_local_journal_exclusive ownedStore [7]
      (mkMeta "a" 1 .consistencyLocal false) (by decide)).1 (by decide)).1,
   (C5_putObject_local_journal_exclusive ownerlessStore [7]
      (mkMeta "a" 1 .consistencyLocal false) (by decide)).2 (by decide)⟩

/-- C6: GetObject returns not-found with the meta still populated in
exactly two cases — the first matching journal record is a symlink, or
the record is not a symlink but the local disk read fails; with no
journal record at all it returns not-found with nil meta; otherwise it
returns the local byte stream together with the meta and no error. -/
theorem C6_getObject_cases (jm : List (String × Journal))
    (disk : List (String × List Nat)) (id : String) :
    (((getObject jm disk id).2.2 = some .notFound ∧
        (getObject jm disk id).2.1 ≠ none) ↔
      (∃ m, headMeta jm id = some m ∧
        (m.isSymlink = true ∨ (m.isSymlink = false ∧ assocGet disk id = none)))) ∧
    (headMeta jm id = none →
      getObject jm disk id = (none, none, some .notFound)) ∧
    (∀ m, headMeta jm id = some m → m.isSymlink = true →
      getObject jm disk id = (none, some m, some .notFound)) ∧
    (∀ m, headMeta jm id = some m → m.isSymlink = false → assocGet disk id = none →
      getObject jm disk id = (none, some m, some .notFound)) ∧
    (∀ m f, headMeta jm id = some m → m.isSymlink = false → assocGet disk id = some f →
      getObject jm disk id = (some f, some m, none)) := by
  cases hh : headMeta jm id with
  | none => simp [getObject, hh]
  | some m =>
    by_cases hs : m.isSymlink
    · simp only [getObject, hh, hs, if_true]
      refine ⟨?_, ?_, ?_, ?_, ?_⟩
      · simp [hs]
      · intro hc; cases hc
      · intro m1 hm1 _
        cases hm1
        rfl
      · intro m1 hm1 hsym
        cases hm1
        rw [hs] at hsym
        cases hsym
      · intro m1 f hm1 hsym
        cases hm1
        rw [hs] at hsym
        cases hsym
    · cases hd : assocGet disk id with
      | none => simp [getObject, hh, hs, hd]
      | some f => simp [getObject, hh, hs, hd]

/-- A journal set where node "n1" holds a non-symlink record for "a". -/
def readJournals : List (String × Journal) :=
  [("n1", [("a", mkMeta "a" 1 .consistencyLocal false)])]

/-- A local disk holding the bytes of "a". -/
def readDisk : List (String × List Nat) := [("a", [7, 8])]

/-- Witness for C6 at a concrete journal set and disk: a non-symlink
record whose bytes are on disk is served with no error. -/
theorem C6_getObject_cases_witness :
    getObject readJournals readDisk "a"
      = (some [7, 8], some (mkMeta "a" 1 .consistencyLocal false), none) :=
  (C6_getObject_cases readJournals readDisk "a").2.2.2.2
    (mkMeta "a" 1 .consistencyLocal false) [7, 8] rfl rfl rfl

theorem listObjectsLoop_some (pages : List ListPage) (acc ks : List String)
    (h : listObjectsLoop pages acc = some ks) :
    ∃ front page rest, pages = front ++ page :: rest ∧
      (∀ q ∈ front, q.isTruncated = true ∧ q.continuationToken ≠ none) ∧
      (page.isTruncated = false ∨ page.continuationToken = none) ∧
      ks = acc ++ (front.map ListPage.contents).flatten ++ page.contents := by
  induction pages generalizing acc with
  | nil => cases h
  | cons page rest ih =>
    by_cases ht : page.isTruncated = false
    · have hks : ks = acc ++ page.contents := by
        simp only [listObjectsLoop, ht, if_pos, Option.some.injEq] at h
        exact h.symm
      exact ⟨[], page, rest, rfl, by simp, Or.inl ht, by simp [hks]⟩
    · by_cases htok : page.continuationToken = none
      · have hks : ks = acc ++ page.contents := by
          simp [listObjectsLoop, ht, htok] at h
          exact h.symm
        exact ⟨[], page, rest, rfl, by simp, Or.inr htok, by simp [hks]⟩
      · have h' : listObjectsLoop rest (acc ++ page.contents) = some ks := by
          simp only [listObjectsLoop, ht, htok, if_neg] at h
          exact h
        obtain ⟨front, page', rest', heq, hfr, hstop, hks⟩ := ih _ h'
        refine ⟨page :: front, page', rest', by simp [heq], ?_, hstop, ?_⟩
        · intro q hq
          rcases List.mem_cons.mp hq with h1 | h1
          · subst h1
            exact ⟨eq_true_of_ne_false ht, htok⟩
          · exact hfr q h1
        · simp [hks, List.append_assoc]

theorem listObjectsLoop_none (pages : List ListPage) (acc : List String)
    (h : ∀ q ∈ pages, q.isTruncated = true ∧ q.continuationToken ≠ none) :
    listObjectsLoop pages acc = none := by
  induction pages generalizing acc with
  | nil => rfl
  | cons page rest ih =>
    have hp := h page (List.mem_cons_self page rest)
    have ht : ¬ page.isTruncated = false := by
      rw [hp.1]
      exact fun hc => by cases hc
    simp only [listObjectsLoop, ht, hp.2, if_neg]
    exact ih _ (fun q hq => h q (List.mem_cons_of_mem page hq))

/-- C7 (counterexample): the claim says ListObjects terminates exactly
when the provider reports no more pages.  On a response sequence whose
first page is truncated (the provider reports more pages) but carries
no continuation token, the loop nonetheless terminates after the first
page and misses the remaining listing. -/
theorem C7_listObjects_stops_despite_more_pages :
    listObjects [⟨["k1"], true, none⟩, ⟨["k2"], false, none⟩] = some ["k1"] ∧
    (⟨["k1"], true, none⟩ : ListPage).isTruncated = true :=
  ⟨rfl, rfl⟩

/-- C7 (amended): every page request carries MaxKeys = 100; when the
loop returns a listing it has consumed a run of truncated responses
carrying continuation tokens followed by one final page at which the
provider reported no more pages or the response carried no
continuation token, and the returned listing is the concatenation of
the keys of every consumed page; while every response is truncated
with a token the loop keeps consuming responses. -/
theorem C7_listObjects_pagination :
    (∀ b pfx sa tok, (mkListObjectsRequest b pfx sa tok).maxKeys = 100) ∧
    (∀ pages ks, listObjects pages = some ks →
      ∃ front page rest, pages = front ++ page :: rest ∧
        (∀ q ∈ front, q.isTruncated = true ∧ q.continuationToken ≠ none) ∧
        (page.isTruncated = false ∨ page.continuationToken = none) ∧
        ks = (front.map ListPage.contents).flatten ++ page.contents) ∧
    (∀ pages, (∀ q ∈ pages, q.isTruncated = true ∧ q.continuationToken ≠ none) →
      listObjects pages = none) := by
  refine ⟨fun b pfx sa tok => rfl, ?_, ?_⟩
  · intro pages ks h
    obtain ⟨front, page, rest, heq, hfr, hstop, hks⟩ := listObjectsLoop_some pages [] ks h
    exact ⟨front, page, rest, heq, hfr, hstop, by simpa using hks⟩
  · intro pages h
    exact listObjectsLoop_none pages [] h

/-- Witness for the amended C7 theorem: a single truncated response
with a continuation token leaves the loop waiting for more responses. -/
theorem C7_listObjects_pagination_witness :
    listObjects [⟨["a"], true, some "t"⟩] = none :=
  C7_listObjects_pagination.2.2 [⟨["a"], true, some "t"⟩] (by decide)

/-- C10: a PutObject whose meta carries a consistency level other than
LOCAL, REMOTE (S3) or FULL returns 0 and an error and leaves the store
state entirely unchanged — no local or remote bytes written, no
journal mutated, no announce emitted. -/
theorem C10_putObject_invalid_consistency (o : StoreState) (r : List Nat)
    (m : FileMeta) (n : Nat) :
    putObject o r { m with consistency := .consistencyOther n }
      = (o, 0, some "objstore: unknown consistency") :=
  rfl

end Objstore
